import Mathlib

/-!
Shallow embedding of the step-execution engine of the You_Only_Do_Once
repository (the `Executor` class, the `mcpTools.executeTool` dispatcher,
the shell adapter's `execute_command`, and the spreadsheet adapter's
`sort_data` / `filter_data` / `append_data`), together with theorems
settling the specification claims about them.

Modelling conventions:
* JavaScript promise rejection / `throw` is modelled with `Except`.
* The environment (what `mcpTools.executeTool` does on the i-th adapter
  invocation of a run) is a function `Nat → ToolOutcome`; the executor is
  a pure function of the step list and that environment.
* Every attempted adapter invocation is recorded in an explicit trace
  (`List Call`), so "no adapter is ever invoked" is an observable fact.
* `new Date().toISOString()` is modelled by a single `now : String`
  carried in the environment (no claim depends on timestamp values).
* JavaScript objects appearing as data are modelled by structures with
  `Option` fields for possibly-absent properties.
-/

set_option autoImplicit false

namespace YODO

/-- Parameter mapping of a step (a JSON object; values abstracted to strings). -/
abbrev Params := List (String × String)

/-- A value returned by an adapter operation.  Every adapter result carries a
`success` boolean (the shell adapter returns `success := false` on command
failure instead of throwing); the rest of the result object is abstracted
into `payload`. -/
structure ToolResult where
  success : Bool
  payload : String := ""
  deriving Repr, DecidableEq

/-- Outcome of one `mcpTools.executeTool` invocation: either it returns a
result value, or it throws (unknown category, unknown tool, or the adapter
itself threw). -/
inductive ToolOutcome where
  | ok (r : ToolResult)
  | thrown (msg : String)
  deriving Repr, DecidableEq

/-- `true` iff the i-th invocation outcome is a thrown error. -/
def ToolOutcome.isThrown : ToolOutcome → Bool
  | .ok _ => false
  | .thrown _ => true

/-- Ambient environment of one executor run: the outcome of the i-th adapter
invocation, and the wall clock (`new Date().toISOString()`). -/
structure Env where
  tool : Nat → ToolOutcome
  now : String

/-- A step of a workflow analysis, with the fields the source reads
(`description`, `tool`, `tool_action`, `parameters`, `expected_output`,
`error_handling`) plus the `step_number` the analysis schema assigns.
`none` models an absent (undefined) property. -/
structure Step where
  step_number : Nat := 0
  description : String := ""
  tool : String := ""
  tool_action : String := ""
  parameters : Option Params := none
  expected_output : String := ""
  error_handling : Option String := none
  deriving Repr, DecidableEq

/-- A workflow as consumed by `Executor.execute`: an id and an optional
analysis holding the step list (`none` models a missing/invalid analysis). -/
structure Workflow where
  id : String := ""
  analysis : Option (List Step) := none
  deriving Repr, DecidableEq

/-- The value `executeStep` returns on success:
`{ tool, toolAction, parameters, result, success: true }`. -/
structure StepResult where
  tool : String
  toolAction : String
  parameters : Params
  result : ToolResult
  success : Bool
  deriving Repr, DecidableEq

/-- The `toolMapping` table of `executeStep`: maps a step's `tool` to an
adapter category, defaulting to the tool name itself. -/
def toolMapping (tool : String) : String :=
  if tool = "filesystem" then "filesystem"
  else if tool = "file" then "filesystem"
  else if tool = "spreadsheet" then "spreadsheet"
  else if tool = "web" then "web"
  else if tool = "shell" then "shell"
  else tool

/-- One recorded `mcpTools.executeTool` invocation (the trace element of the
i-th attempt: resolved category, operation name, parameters). -/
structure Call where
  idx : Nat
  category : String
  action : String
  params : Params
  deriving Repr, DecidableEq

/-- `Executor.executeStep`: computes the tool category, invokes
`mcpTools.executeTool`, and wraps a returned value in a `StepResult` with
`success := true` (the returned value's own `success` field is not
inspected); a thrown error is rethrown.  Also yields the `Call` made. -/
def executeStep (env : Env) (i : Nat) (step : Step) :
    Except String StepResult × Call :=
  let parameters := step.parameters.getD []
  let toolCategory := toolMapping step.tool
  let call : Call := ⟨i, toolCategory, step.tool_action, parameters⟩
  match env.tool i with
  | .ok r =>
    (.ok { tool := step.tool, toolAction := step.tool_action,
           parameters := parameters, result := r, success := true }, call)
  | .thrown m => (.error m, call)

/-- One entry of the execution log built by `Executor.execute`. -/
structure LogEntry where
  step : Nat
  description : String
  status : String
  result : Option StepResult := none
  error : Option String := none
  timestamp : String := ""
  deriving Repr, DecidableEq

/-- The terminal value of `Executor.execute`: the three return shapes of the
loop plus the outer-catch shape (`fatal`, produced when the analysis is
missing). -/
inductive RunResult where
  | completed (workflowId : String) (executionLog : List LogEntry)
      (results : List StepResult) (timestamp : String)
  | stopped (error : String) (executionLog : List LogEntry)
      (completedSteps totalSteps : Nat)
  | needsInput (error : String) (executionLog : List LogEntry)
  | fatal (error : String) (timestamp : String)
  deriving Repr, DecidableEq

/-- Top-level `success` flag of a run result. -/
def RunResult.success : RunResult → Bool
  | .completed _ _ _ _ => true
  | _ => false

/-- `requiresUserInput` flag of a run result. -/
def RunResult.requiresUserInput : RunResult → Bool
  | .needsInput _ _ => true
  | _ => false

/-- The `executionLog` carried by a run result (`[]` for the fatal shape,
which has none). -/
def RunResult.executionLog : RunResult → List LogEntry
  | .completed _ l _ _ => l
  | .stopped _ l _ _ => l
  | .needsInput _ l => l
  | .fatal _ _ => []

/-- The step loop of `Executor.execute`: iterates the remaining steps,
carrying the 0-based index `i`, the accumulated `executionLog` and
`results`, and the invocation trace.  Mirrors the source's per-step
`try`/`catch` and the `stop` / `continue` / fallback branches. -/
def execGo (env : Env) (wid : String) (total : Nat) :
    List Step → Nat → List LogEntry → List StepResult → List Call →
    RunResult × List Call
  | [], _, log, results, calls => (.completed wid log results env.now, calls)
  | step :: rest, i, log, results, calls =>
    match executeStep env i step with
    | (.ok result, call) =>
      execGo env wid total rest (i + 1)
        (log ++ [{ step := i + 1, description := step.description,
                   status := "success", result := some result,
                   timestamp := env.now }])
        (results ++ [result]) (calls ++ [call])
    | (.error msg, call) =>
      let log := log ++ [{ step := i + 1, description := step.description,
                           status := "error", error := some msg,
                           timestamp := env.now }]
      let calls := calls ++ [call]
      if step.error_handling = some "stop" then
        (.stopped ("Failed at step " ++ toString (i + 1) ++ ": " ++ msg)
          log i total, calls)
      else if step.error_handling = some "continue" then
        execGo env wid total rest (i + 1) log results calls
      else
        (.needsInput ("Step " ++ toString (i + 1) ++ " failed: " ++ msg) log,
         calls)

/-- `Executor.execute`: guards the missing-analysis case, then runs the step
loop from index 0 with empty accumulators. -/
def execute (env : Env) (wf : Workflow) : RunResult × List Call :=
  match wf.analysis with
  | none => (.fatal "Workflow analysis missing or invalid" env.now, [])
  | some steps => execGo env wf.id steps.length steps 0 [] [] []

/-! ### Dry run (`Executor.dryRun`) -/

/-- One entry of the simulation log built by `Executor.dryRun`. -/
structure SimEntry where
  step : Nat
  description : String
  tool : String
  parameters : Option Params
  expectedOutput : String
  wouldExecute : Bool
  deriving Repr, DecidableEq

/-- The value `Executor.dryRun` returns. -/
structure DryRunPayload where
  success : Bool
  isDryRun : Bool
  simulationLog : List SimEntry
  timestamp : String
  deriving Repr, DecidableEq

/-- The loop of `Executor.dryRun`: builds one simulation entry per step,
carrying the 0-based index; performs no invocation. -/
def dryRunGo : List Step → Nat → List SimEntry
  | [], _ => []
  | step :: rest, i =>
    { step := i + 1, description := step.description, tool := step.tool,
      parameters := step.parameters, expectedOutput := step.expected_output,
      wouldExecute := true } :: dryRunGo rest (i + 1)

/-- `Executor.dryRun`: builds the simulation log and returns
`{success:true, isDryRun:true, simulationLog, timestamp}`; a missing
analysis makes the body throw (rethrown by its catch).  Takes and returns
the invocation trace so that "no adapter call happens" is observable. -/
def dryRun (env : Env) (wf : Workflow) (calls : List Call) :
    Except String DryRunPayload × List Call :=
  match wf.analysis with
  | none => (.error "TypeError: workflow analysis missing", calls)
  | some steps =>
    (.ok { success := true, isDryRun := true,
           simulationLog := dryRunGo steps 0, timestamp := env.now }, calls)

/-! ### Confirmation variant (`Executor.executeWithConfirmation`) -/

/-- One entry of the log built by `executeWithConfirmation`:
`{step: i+1, ...result, timestamp}` — the spread of a `StepResult`, with no
`description` and no `status` field. -/
structure ConfEntry where
  step : Nat
  tool : String
  toolAction : String
  parameters : Params
  result : ToolResult
  success : Bool
  timestamp : String
  deriving Repr, DecidableEq

/-- The value `executeWithConfirmation` returns on success. -/
structure ConfPayload where
  success : Bool
  executionLog : List ConfEntry
  timestamp : String
  deriving Repr, DecidableEq

/-- The loop of `executeWithConfirmation`: no per-step `try`/`catch`, so the
first thrown step error aborts the loop and propagates (the outer catch
rethrows). -/
def confGo (env : Env) :
    List Step → Nat → List ConfEntry → List Call →
    Except String (List ConfEntry) × List Call
  | [], _, log, calls => (.ok log, calls)
  | step :: rest, i, log, calls =>
    match executeStep env i step with
    | (.ok result, call) =>
      confGo env rest (i + 1)
        (log ++ [{ step := i + 1, tool := result.tool,
                   toolAction := result.toolAction,
                   parameters := result.parameters, result := result.result,
                   success := result.success, timestamp := env.now }])
        (calls ++ [call])
    | (.error msg, call) => (.error msg, calls ++ [call])

/-- `Executor.executeWithConfirmation`: the intended pause point is
unimplemented — it runs the loop immediately; any step error propagates to
the caller as a thrown error. -/
def executeWithConfirmation (env : Env) (wf : Workflow) :
    Except String ConfPayload × List Call :=
  match wf.analysis with
  | none => (.error "TypeError: workflow analysis missing", [])
  | some steps =>
    match confGo env steps 0 [] [] with
    | (.ok log, calls) =>
      (.ok { success := true, executionLog := log, timestamp := env.now },
       calls)
    | (.error m, calls) => (.error m, calls)

/-! ### Shell adapter (`src/tools/shell.js`, `execute_command`) -/

/-- Options object passed to `execPromise` by `execute_command`. -/
structure ExecOptions where
  maxBuffer : Nat
  timeout : Nat
  deriving Repr, DecidableEq

/-- The options `execute_command` passes:
`{ maxBuffer: 10 * 1024 * 1024, timeout: 30000 }`. -/
def shellExecOptions : ExecOptions :=
  { maxBuffer := 10 * 1024 * 1024, timeout := 30000 }

/-- The error object with which `execPromise` rejects (timeout, nonzero
exit, spawn failure): numeric `code`/`status` when present, the stdout and
stderr captured so far (absent modelled as `""`, which is also JS-falsy),
and the message. -/
structure ExecError where
  code : Option Int := none
  status : Option Int := none
  stdout : String := ""
  stderr : String := ""
  message : String
  deriving Repr, DecidableEq

/-- What the underlying `execPromise` call does: resolve with stdout/stderr
or reject with an error object. -/
inductive ExecOutcome where
  | resolved (stdout stderr : String)
  | rejected (e : ExecError)
  deriving Repr, DecidableEq

/-- Ambient environment of the shell adapter: the behavior of `execPromise`
as a function of command, working directory and options, plus
`process.cwd()`. -/
structure ShellEnv where
  exec : String → String → ExecOptions → ExecOutcome
  procCwd : String

/-- Parameters of `execute_command` (`command` and `cwd` may be absent). -/
structure ShellParams where
  command : Option String := none
  cwd : Option String := none
  deriving Repr, DecidableEq

/-- The result object `execute_command` returns. -/
structure ShellResult where
  success : Bool
  command : Option String
  cwd : String
  stdout : String
  stderr : String
  exitCode : Int
  error : Option String := none
  deriving Repr, DecidableEq

/-- JS `a || b` on strings (`""` is falsy). -/
def jsOrStr (a b : String) : String := if a = "" then b else a

/-- JS `a || b` where `a` is a possibly-absent number (`0` and absent are
falsy). -/
def jsOrInt (a : Option Int) (b : Int) : Int :=
  match a with
  | some x => if x = 0 then b else x
  | none => b

/-- The error value reaching `execute_command`'s catch block: either the
`throw new Error(...)` for a missing command, or an `execPromise`
rejection. -/
inductive ShellError where
  | plain (message : String)
  | execErr (e : ExecError)
  deriving Repr, DecidableEq

/-- `error.message` of a caught shell error. -/
def ShellError.message : ShellError → String
  | .plain m => m
  | .execErr e => e.message

/-- `error.stdout || ''` of a caught shell error. -/
def ShellError.stdoutCaptured : ShellError → String
  | .plain _ => ""
  | .execErr e => e.stdout

/-- `error.stderr` of a caught shell error (absent modelled as `""`). -/
def ShellError.stderrCaptured : ShellError → String
  | .plain _ => ""
  | .execErr e => e.stderr

/-- `error.code` of a caught shell error. -/
def ShellError.code : ShellError → Option Int
  | .plain _ => none
  | .execErr e => e.code

/-- `error.status` of a caught shell error. -/
def ShellError.status : ShellError → Option Int
  | .plain _ => none
  | .execErr e => e.status

/-- The `try` block of `execute_command`: throws when `command` is absent,
otherwise calls `execPromise(command, {cwd, maxBuffer: 10MB, timeout:
30000})` and returns the success result on resolution, or rethrows the
rejection. -/
def execute_command_go (env : ShellEnv) (params : ShellParams) :
    Except ShellError ShellResult :=
  match params.command with
  | none => .error (.plain "Command parameter is required")
  | some cmd =>
    let cwd := params.cwd.getD env.procCwd
    match env.exec cmd cwd shellExecOptions with
    | .resolved out errOut =>
      .ok { success := true, command := some cmd, cwd := cwd, stdout := out,
            stderr := errOut, exitCode := 0 }
    | .rejected e => .error (.execErr e)

/-- `execute_command`: the whole body is wrapped in `try`/`catch`; the catch
converts any error into a structured `success:false` result with
`exitCode = error.code || error.status || 1`, `stdout = error.stdout || ''`
and `stderr = error.stderr || error.message` — so the operation never
raises to its caller. -/
def execute_command (env : ShellEnv) (params : ShellParams) : ShellResult :=
  match execute_command_go env params with
  | .ok r => r
  | .error e =>
    { success := false
      command := params.command
      cwd := jsOrStr (params.cwd.getD "") env.procCwd
      stdout := e.stdoutCaptured
      stderr := jsOrStr e.stderrCaptured e.message
      exitCode := jsOrInt e.code (jsOrInt e.status 1)
      error := some e.message }

/-! ### Spreadsheet adapter (`src/tools/spreadsheet.js`) -/

/-- A spreadsheet row as produced by `xlsx.utils.sheet_to_json`: a JSON
object mapping column names to cell values (values abstracted to `Int`). -/
abbrev Row := List (String × Int)

/-- `row[column]` — property lookup on a row object (`none` = undefined). -/
def lookupCol (r : Row) (c : String) : Option Int :=
  (r.find? (fun p => p.1 = c)).map (fun p => p.2)

/-- A workbook: ordered association of sheet names to row lists
(`workbook.SheetNames` is the list of first components). -/
abbrev Workbook := List (String × List Row)

/-- The spreadsheet file store: association of file paths to workbooks
(`fs.existsSync` = membership). -/
abbrev Store := List (String × Workbook)

/-- Look up a file in the store. -/
def getFile (store : Store) (p : String) : Option Workbook :=
  (store.find? (fun q => q.1 = p)).map (fun q => q.2)

/-- Write a workbook at a path (replace if present, else create). -/
def setFile (store : Store) (p : String) (wb : Workbook) : Store :=
  if (store.find? (fun q => q.1 = p)).isSome then
    store.map (fun q => if q.1 = p then (p, wb) else q)
  else
    store ++ [(p, wb)]

/-- JS `opt || dflt` on a possibly-absent string (absent and `""` falsy). -/
def jsOrOptStr (opt : Option String) (dflt : String) : String :=
  match opt with
  | some s => if s = "" then dflt else s
  | none => dflt

/-- JS truthiness of a possibly-absent string. -/
def jsTruthy (opt : Option String) : Bool :=
  match opt with
  | some s => s ≠ ""
  | none => false

/-- The result object of `read_spreadsheet`. -/
structure ReadResult where
  success : Bool
  path : String
  sheet : String
  data : List Row
  rowCount : Nat
  columnCount : Nat
  deriving Repr, DecidableEq

/-- `read_spreadsheet`: existence check, nonempty-sheet check,
`sheetName = sheet || SheetNames[0]`, membership check, then the sheet's
rows with row/column counts; all failures throw. -/
def read_spreadsheet (store : Store) (filePath : String)
    (sheet : Option String) : Except String ReadResult :=
  match getFile store filePath with
  | none => .error ("File not found: " ++ filePath)
  | some wb =>
    match wb with
    | [] => .error "No sheets found in workbook"
    | (first, _) :: _ =>
      let sheetName := jsOrOptStr sheet first
      match (wb.find? (fun q => q.1 = sheetName)).map (fun q => q.2) with
      | none => .error ("Sheet not found: " ++ sheetName)
      | some rows =>
        .ok { success := true, path := filePath, sheet := sheetName,
              data := rows, rowCount := rows.length,
              columnCount := match rows with
                             | [] => 0
                             | r :: _ => r.length }

/-- The result object of `write_spreadsheet`. -/
structure WriteResult where
  success : Bool
  path : String
  sheet : String
  rowsWritten : Nat
  deriving Repr, DecidableEq

/-- `write_spreadsheet`: `sheetName = sheet || 'Sheet1'`; builds a fresh
workbook containing only that sheet and writes it at the path (a full
write of the whole data). -/
def write_spreadsheet (store : Store) (filePath : String) (data : List Row)
    (sheet : Option String) : WriteResult × Store :=
  let sheetName := jsOrOptStr sheet "Sheet1"
  ({ success := true, path := filePath, sheet := sheetName,
     rowsWritten := data.length },
   setFile store filePath [(sheetName, data)])

/-- `isAscending = order !== 'desc'` in `sort_data`. -/
def sortIsAscending (order : Option String) : Bool := order ≠ some "desc"

/-- The JS comparison `a < b` on possibly-undefined cell values: `false`
whenever either side is undefined. -/
def ltJS : Option Int → Option Int → Bool
  | some a, some b => decide (a < b)
  | _, _ => false

/-- The comparator of `sort_data` reports "strictly before": for ascending
order `a[column] < b[column]`, for descending `a[column] > b[column]`. -/
def rowBefore (column : String) (isAscending : Bool) (a b : Row) : Bool :=
  if isAscending then ltJS (lookupCol a column) (lookupCol b column)
  else ltJS (lookupCol b column) (lookupCol a column)

/-- Stable insertion of a row into an already-sorted list: placed before
the first element it must strictly precede. -/
def insertRow (before : Row → Row → Bool) (r : Row) : List Row → List Row
  | [] => [r]
  | y :: ys => if before r y then r :: y :: ys else y :: insertRow before r ys

/-- The stable comparator sort `data.sort(...)` performs. -/
def sortRows (before : Row → Row → Bool) : List Row → List Row
  | [] => []
  | r :: rs => insertRow before r (sortRows before rs)

/-- The result object of `sort_data`. -/
structure SortResult where
  success : Bool
  path : String
  sortedBy : String
  order : String
  rowsSorted : Nat
  deriving Repr, DecidableEq

/-- `sort_data`: full read via `read_spreadsheet`, column check, in-memory
sort, then full write back via `write_spreadsheet` with
`sheet || readResult.sheet`; returns the new store alongside the result. -/
def sort_data (store : Store) (filePath : String) (column : Option String)
    (order : Option String) (sheet : Option String) :
    Except String (SortResult × Store) :=
  match read_spreadsheet store filePath sheet with
  | .error m => .error m
  | .ok readResult =>
    if jsTruthy column = false then
      .error "Column parameter required for sorting"
    else
      let col := column.getD ""
      let isAscending := sortIsAscending order
      let data := sortRows (rowBefore col isAscending) readResult.data
      let written := write_spreadsheet store filePath data
        (some (jsOrOptStr sheet readResult.sheet))
      .ok ({ success := true, path := filePath, sortedBy := col,
             order := if isAscending then "asc" else "desc",
             rowsSorted := data.length }, written.2)

/-- The result object of `filter_data`. -/
structure FilterResult where
  success : Bool
  path : String
  column : String
  value : Int
  matchedRows : Nat
  data : List Row
  deriving Repr, DecidableEq

/-- `filter_data`: full read via `read_spreadsheet`, parameter check, then
filters the rows where `row[column] == value` and returns them in the
result object; the file store is returned unchanged — the function
performs no write. -/
def filter_data (store : Store) (filePath : String) (column : Option String)
    (value : Option Int) (sheet : Option String) :
    Except String (FilterResult × Store) :=
  match read_spreadsheet store filePath sheet with
  | .error m => .error m
  | .ok readResult =>
    if jsTruthy column = false ∨ value = none then
      .error "Column and value parameters required for filtering"
    else
      let col := column.getD ""
      let v := value.getD 0
      let filteredData := readResult.data.filter
        (fun row => lookupCol row col = some v)
      .ok ({ success := true, path := filePath, column := col, value := v,
             matchedRows := filteredData.length, data := filteredData },
           store)

/-- The result object of `append_data`. -/
structure AppendResult where
  success : Bool
  path : String
  rowsAppended : Nat
  totalRows : Nat
  deriving Repr, DecidableEq

/-- `append_data`: full read via `read_spreadsheet`, concatenates the new
rows after the existing ones, then full write back via
`write_spreadsheet` with `sheet || readResult.sheet`. -/
def append_data (store : Store) (filePath : String) (data : List Row)
    (sheet : Option String) : Except String (AppendResult × Store) :=
  match read_spreadsheet store filePath sheet with
  | .error m => .error m
  | .ok readResult =>
    let combinedData := readResult.data ++ data
    let written := write_spreadsheet store filePath combinedData
      (some (jsOrOptStr sheet readResult.sheet))
    .ok ({ success := true, path := filePath, rowsAppended := data.length,
           totalRows := combinedData.length }, written.2)

/-! ### Derived descriptions of a run, used to state the claims -/

/-- Number of execution-log entries with status `success`. -/
def countSucc (log : List LogEntry) : Nat :=
  (log.filter (fun e => e.status = "success")).length

/-- The execution-log segment the loop appends while walking `steps` from
index `i`, as long as no failing step terminates the run: a `success` entry
for a returned value, an `error` entry for a thrown error. -/
def contLog (env : Env) : List Step → Nat → List LogEntry
  | [], _ => []
  | step :: rest, i =>
    (match executeStep env i step with
     | (.ok result, _) =>
       { step := i + 1, description := step.description, status := "success",
         result := some result, timestamp := env.now }
     | (.error msg, _) =>
       { step := i + 1, description := step.description, status := "error",
         error := some msg, timestamp := env.now })
    :: contLog env rest (i + 1)

/-- The results the loop accumulates while walking `steps` from index `i`:
one `StepResult` per step whose invocation returned a value. -/
def contResults (env : Env) : List Step → Nat → List StepResult
  | [], _ => []
  | step :: rest, i =>
    match executeStep env i step with
    | (.ok result, _) => result :: contResults env rest (i + 1)
    | (.error _, _) => contResults env rest (i + 1)

/-- The invocation trace the loop produces while walking `steps` from index
`i`: one `Call` per attempted step. -/
def contCalls (env : Env) : List Step → Nat → List Call
  | [], _ => []
  | step :: rest, i => (executeStep env i step).2 :: contCalls env rest (i + 1)

/-- The log entry `executeWithConfirmation` appends for step `step` at
index `i` when the invocation returns a value.  (When the invocation
throws, the confirmation loop appends nothing and aborts; the error branch
below is never appended to a log and its value is immaterial.) -/
def confEntryOf (env : Env) (i : Nat) (step : Step) : ConfEntry :=
  match executeStep env i step with
  | (.ok result, _) =>
    { step := i + 1, tool := result.tool, toolAction := result.toolAction,
      parameters := result.parameters, result := result.result,
      success := result.success, timestamp := env.now }
  | (.error msg, _) =>
    { step := i + 1, tool := step.tool, toolAction := step.tool_action,
      parameters := step.parameters.getD [],
      result := { success := false, payload := msg }, success := false,
      timestamp := env.now }

/-- The log `executeWithConfirmation` builds over `steps` from index `i`
when every invocation returns a value. -/
def confLog (env : Env) : List Step → Nat → List ConfEntry
  | [], _ => []
  | step :: rest, i => confEntryOf env i step :: confLog env rest (i + 1)

/-! ### Concrete fixtures for witnesses and counterexamples -/

/-- Environment whose i-th invocation outcome is the i-th list element
(out-of-range invocations throw). -/
def listEnv (outs : List ToolOutcome) : Env :=
  { tool := fun i => outs.getD i (.thrown "no outcome"), now := "T" }

/-- A sample step invoking the shell adapter, policy `stop`. -/
def shellStopStep : Step :=
  { description := "run a command", tool := "shell",
    tool_action := "execute_command", error_handling := some "stop" }

/-- A sample step invoking the web adapter, policy `continue`. -/
def webContinueStep : Step :=
  { description := "fetch a page", tool := "web", tool_action := "fetch_url",
    error_handling := some "continue" }

/-- A sample step with no `error_handling` property. -/
def plainStep : Step :=
  { description := "list files", tool := "file", tool_action := "list_files" }

/-- The result object the shell adapter returns on a failed command:
`success := false`. -/
def shellFailToolResult : ToolResult :=
  { success := false, payload := "exit 1" }

/-- A sample spreadsheet store: one file with one sheet of two rows. -/
def demoStore : Store :=
  [("data.xlsx", [("Sheet1", [[("a", 2)], [("a", 1)]])])]

/-- A shell environment whose `execPromise` always rejects the way a
timed-out command does: partial stdout captured, no exit code. -/
def timeoutShellEnv : ShellEnv :=
  { exec := fun _ _ _ => .rejected
      { code := none, status := none, stdout := "partial output",
        stderr := "", message := "Command failed: timed out" },
    procCwd := "/work" }

/-! ## Helper lemmas -/

theorem executeStep_call (env : Env) (i : Nat) (step : Step) :
    (executeStep env i step).2
      = ⟨i, toolMapping step.tool, step.tool_action, step.parameters.getD []⟩ := by
  cases h : env.tool i <;> simp [executeStep, h]

theorem contLog_length (env : Env) :
    ∀ (steps : List Step) (i : Nat),
      (contLog env steps i).length = steps.length
  | [], _ => rfl
  | step :: rest, i => by
    simp [contLog, contLog_length env rest (i + 1)]

theorem contCalls_map_idx (env : Env) :
    ∀ (steps : List Step) (i : Nat),
      (contCalls env steps i).map (fun c => c.idx) = List.range' i steps.length
  | [], _ => by simp [contCalls]
  | step :: rest, i => by
    simp [contCalls, executeStep_call, contCalls_map_idx env rest (i + 1),
      List.range'_succ]

theorem contLog_status (env : Env) :
    ∀ (steps : List Step) (i j : Nat)
      (hj : j < (contLog env steps i).length),
      ((contLog env steps i).get ⟨j, hj⟩).status
        = if (env.tool (i + j)).isThrown = true then "error" else "success"
  | step :: rest, i, 0, hj => by
    cases h : env.tool i <;>
      simp [contLog, executeStep, h, ToolOutcome.isThrown]
  | step :: rest, i, j + 1, hj => by
    have ih := contLog_status env rest (i + 1) j (by
      simpa [contLog] using hj)
    have harith : i + (j + 1) = i + 1 + j := by omega
    simpa [contLog, harith] using ih

theorem contResults_length_ok (env : Env) :
    ∀ (steps : List Step) (i : Nat),
      (∀ j, j < steps.length → (env.tool (i + j)).isThrown = false) →
      (contResults env steps i).length = steps.length
  | [], _, _ => rfl
  | step :: rest, i, h => by
    have h0 : (env.tool i).isThrown = false := by
      have := h 0 (by simp)
      simpa using this
    have ih := contResults_length_ok env rest (i + 1) (fun j hj => by
      have := h (j + 1) (by simpa using Nat.succ_lt_succ hj)
      have harith : i + (j + 1) = i + 1 + j := by omega
      rwa [harith] at this)
    cases henv : env.tool i with
    | ok r => simp [contResults, executeStep, henv, ih]
    | thrown m => simp [henv, ToolOutcome.isThrown] at h0

theorem dryRunGo_length :
    ∀ (steps : List Step) (i : Nat), (dryRunGo steps i).length = steps.length
  | [], _ => rfl
  | step :: rest, i => by simp [dryRunGo, dryRunGo_length rest (i + 1)]

theorem dryRunGo_wouldExecute :
    ∀ (steps : List Step) (i : Nat) (e : SimEntry),
      e ∈ dryRunGo steps i → e.wouldExecute = true
  | step :: rest, i, e, hmem => by
    rcases (by simpa [dryRunGo] using hmem : e = _ ∨ e ∈ dryRunGo rest (i + 1)) with
      h | h
    · simp [h]
    · exact dryRunGo_wouldExecute rest (i + 1) e h

/-- Master prefix lemma: as long as every failing step of the prefix has
policy `continue`, the loop walks the whole prefix, appending its log
entries, results and calls, and proceeds to the remainder. -/
theorem execGo_append (env : Env) (wid : String) (total : Nat) :
    ∀ (pre rest : List Step) (i : Nat) (log : List LogEntry)
      (results : List StepResult) (calls : List Call),
      (∀ j (hj : j < pre.length), (env.tool (i + j)).isThrown = true →
        (pre.get ⟨j, hj⟩).error_handling = some "continue") →
      execGo env wid total (pre ++ rest) i log results calls
        = execGo env wid total rest (i + pre.length)
            (log ++ contLog env pre i) (results ++ contResults env pre i)
            (calls ++ contCalls env pre i)
  | [], rest, i, log, results, calls, _ => by
    simp [contLog, contResults, contCalls]
  | step :: pre, rest, i, log, results, calls, h => by
    have hnext : ∀ j (hj : j < pre.length),
        (env.tool (i + 1 + j)).isThrown = true →
        (pre.get ⟨j, hj⟩).error_handling = some "continue" := by
      intro j hj ht
      have harith : i + (j + 1) = i + 1 + j := by omega
      have := h (j + 1) (Nat.succ_lt_succ hj) (by rwa [harith])
      simpa using this
    have harith : i + (pre.length + 1) = i + 1 + pre.length := by omega
    cases henv : env.tool i with
    | ok r =>
      have ih := execGo_append env wid total pre rest (i + 1)
        (log ++ [{ step := i + 1, description := step.description,
                   status := "success",
                   result := some { tool := step.tool,
                                    toolAction := step.tool_action,
                                    parameters := step.parameters.getD [],
                                    result := r, success := true },
                   timestamp := env.now }])
        (results ++ [{ tool := step.tool, toolAction := step.tool_action,
                       parameters := step.parameters.getD [], result := r,
                       success := true }])
        (calls ++ [⟨i, toolMapping step.tool, step.tool_action,
                    step.parameters.getD []⟩]) hnext
      simp only [List.cons_append, List.append_eq, execGo, executeStep, henv]
        at ih ⊢
      rw [ih]
      simp [contLog, contResults, contCalls, executeStep, henv, harith,
        executeStep_call]
    | thrown m =>
      have hcont : step.error_handling = some "continue" := by
        have := h 0 (by simp) (by simp [henv, ToolOutcome.isThrown])
        simpa using this
      have ih := execGo_append env wid total pre rest (i + 1)
        (log ++ [{ step := i + 1, description := step.description,
                   status := "error", error := some m,
                   timestamp := env.now }])
        results
        (calls ++ [⟨i, toolMapping step.tool, step.tool_action,
                    step.parameters.getD []⟩]) hnext
      simp only [List.cons_append, List.append_eq, execGo, executeStep, henv,
        hcont] at ih ⊢
      rw [if_pos trivial, ih]
      simp [contLog, contResults, contCalls, executeStep, henv, harith,
        executeStep_call]

/-- Invariant of the loop: the `step` fields of the final log are exactly
`1, 2, …, n`, and the recorded invocation indices are exactly
`0, 1, …, n-1`, when the incoming accumulators already have that shape. -/
theorem execGo_log_shape (env : Env) (wid : String) (total : Nat) :
    ∀ (steps : List Step) (i : Nat) (log : List LogEntry)
      (results : List StepResult) (calls : List Call),
      log.map (fun e => e.step) = List.range' 1 log.length →
      calls.map (fun c => c.idx) = List.range log.length →
      i = log.length →
      ((execGo env wid total steps i log results calls).1.executionLog.map
          (fun e => e.step)
        = List.range' 1
            (execGo env wid total steps i log results calls).1.executionLog.length)
      ∧ ((execGo env wid total steps i log results calls).2.map
          (fun c => c.idx)
        = List.range
            (execGo env wid total steps i log results calls).1.executionLog.length)
  | [], i, log, results, calls, hlog, hcalls, hi => by
    simpa [execGo, RunResult.executionLog] using ⟨hlog, hcalls⟩
  | step :: rest, i, log, results, calls, hlog, hcalls, hi => by
    cases henv : env.tool i with
    | ok r =>
      have ih := execGo_log_shape env wid total rest (i + 1)
        (log ++ [{ step := i + 1, description := step.description,
                   status := "success",
                   result := some { tool := step.tool,
                                    toolAction := step.tool_action,
                                    parameters := step.parameters.getD [],
                                    result := r, success := true },
                   timestamp := env.now }])
        (results ++ [{ tool := step.tool, toolAction := step.tool_action,
                       parameters := step.parameters.getD [], result := r,
                       success := true }])
        (calls ++ [⟨i, toolMapping step.tool, step.tool_action,
                    step.parameters.getD []⟩])
        (by simp [hlog, hi, List.range'_1_concat, Nat.add_comm])
        (by simp [hcalls, hi, List.range_succ]) (by simp [hi])
      simpa [execGo, executeStep, henv] using ih
    | thrown m =>
      by_cases hstop : step.error_handling = some "stop"
      · refine ⟨?_, ?_⟩ <;>
        · simp only [execGo, executeStep, henv]
          rw [if_pos hstop]
          simp [RunResult.executionLog, hlog, hcalls, hi,
            List.range'_1_concat, List.range_succ, Nat.add_comm]
      · by_cases hcont : step.error_handling = some "continue"
        · have ih := execGo_log_shape env wid total rest (i + 1)
            (log ++ [{ step := i + 1, description := step.description,
                       status := "error", error := some m,
                       timestamp := env.now }])
            results
            (calls ++ [⟨i, toolMapping step.tool, step.tool_action,
                        step.parameters.getD []⟩])
            (by simp [hlog, hi, List.range'_1_concat, Nat.add_comm])
            (by simp [hcalls, hi, List.range_succ]) (by simp [hi])
          have hgo : execGo env wid total (step :: rest) i log results calls
              = execGo env wid total rest (i + 1)
                  (log ++ [{ step := i + 1,
                             description := step.description,
                             status := "error", error := some m,
                             timestamp := env.now }])
                  results
                  (calls ++ [⟨i, toolMapping step.tool, step.tool_action,
                              step.parameters.getD []⟩]) := by
            simp only [execGo, executeStep, henv]
            rw [if_neg hstop, if_pos hcont]
          rw [hgo]
          exact ih
        · refine ⟨?_, ?_⟩ <;>
          · simp only [execGo, executeStep, henv]
            rw [if_neg hstop, if_neg hcont]
            simp [RunResult.executionLog, hlog, hcalls, hi,
              List.range'_1_concat, List.range_succ, Nat.add_comm]

/-- The loop never reads `step_number`: zeroing it in every step leaves the
run unchanged. -/
theorem execGo_step_number_irrelevant (env : Env) (wid : String)
    (total : Nat) :
    ∀ (steps : List Step) (i : Nat) (log : List LogEntry)
      (results : List StepResult) (calls : List Call),
      execGo env wid total
          (steps.map (fun s => { s with step_number := 0 })) i log results
          calls
        = execGo env wid total steps i log results calls
  | [], _, _, _, _ => by simp [execGo]
  | step :: rest, i, log, results, calls => by
    cases henv : env.tool i with
    | ok r =>
      simp [execGo, executeStep, henv,
        execGo_step_number_irrelevant env wid total rest (i + 1)]
    | thrown m =>
      by_cases hstop : step.error_handling = some "stop"
      · simp [execGo, executeStep, henv, hstop]
      · by_cases hcont : step.error_handling = some "continue"
        · simp [execGo, executeStep, henv, hstop, hcont,
            execGo_step_number_irrelevant env wid total rest (i + 1)]
        · simp [execGo, executeStep, henv, hstop, hcont]

/-- Prefix lemma for the confirmation loop: while invocations return
values, the loop appends one entry and one call per step. -/
theorem confGo_append (env : Env) :
    ∀ (pre rest : List Step) (i : Nat) (log : List ConfEntry)
      (calls : List Call),
      (∀ j, j < pre.length → (env.tool (i + j)).isThrown = false) →
      confGo env (pre ++ rest) i log calls
        = confGo env rest (i + pre.length) (log ++ confLog env pre i)
            (calls ++ contCalls env pre i)
  | [], rest, i, log, calls, _ => by simp [confLog, contCalls]
  | step :: pre, rest, i, log, calls, h => by
    have hnext : ∀ j, j < pre.length → (env.tool (i + 1 + j)).isThrown = false := by
      intro j hj
      have harith : i + (j + 1) = i + 1 + j := by omega
      have := h (j + 1) (Nat.succ_lt_succ hj)
      rwa [harith] at this
    have harith : i + (pre.length + 1) = i + 1 + pre.length := by omega
    cases henv : env.tool i with
    | ok r =>
      have ih := confGo_append env pre rest (i + 1)
        (log ++ [{ step := i + 1, tool := step.tool,
                   toolAction := step.tool_action,
                   parameters := step.parameters.getD [], result := r,
                   success := true, timestamp := env.now }])
        (calls ++ [⟨i, toolMapping step.tool, step.tool_action,
                    step.parameters.getD []⟩]) hnext
      simp only [List.cons_append, List.append_eq, confGo, executeStep, henv]
        at ih ⊢
      rw [ih]
      simp [confLog, confEntryOf, contCalls, executeStep, henv, harith,
        executeStep_call]
    | thrown m =>
      have := h 0 (by simp)
      simp [henv, ToolOutcome.isThrown] at this

/-! ## Claim theorems -/

/-- C2: for steps `[A, B, C]` where A's invocation returns a value, B's
invocation throws and B's policy is `stop`, the run terminates right after
B with the `stop` shape: `success:false`, the triggering error, a 2-entry
log (A success, B error), `completedSteps = 1`, `totalSteps = 3`, and C is
never attempted (the invocation trace holds exactly indices 0 and 1). -/
theorem claim_C2_stop_terminates (env : Env) (wid : String) (A B C : Step)
    (r : ToolResult) (m : String)
    (hA : env.tool 0 = .ok r) (hB : env.tool 1 = .thrown m)
    (hStop : B.error_handling = some "stop") :
    execute env { id := wid, analysis := some [A, B, C] }
      = (.stopped ("Failed at step 2: " ++ m)
          [{ step := 1, description := A.description, status := "success",
             result := some { tool := A.tool, toolAction := A.tool_action,
                              parameters := A.parameters.getD [],
                              result := r, success := true },
             timestamp := env.now },
           { step := 2, description := B.description, status := "error",
             error := some m, timestamp := env.now }]
          1 3,
         [⟨0, toolMapping A.tool, A.tool_action, A.parameters.getD []⟩,
          ⟨1, toolMapping B.tool, B.tool_action, B.parameters.getD []⟩]) := by
  simp [execute, execGo, executeStep, hA, hB, hStop]
  rfl

theorem claim_C2_stop_terminates_witness :
    (listEnv [.ok ⟨true, "out"⟩, .thrown "boom"]).tool 0 = .ok ⟨true, "out"⟩
    ∧ (listEnv [.ok ⟨true, "out"⟩, .thrown "boom"]).tool 1 = .thrown "boom"
    ∧ shellStopStep.error_handling = some "stop"
    ∧ execute (listEnv [.ok ⟨true, "out"⟩, .thrown "boom"])
        { id := "w",
          analysis := some [plainStep, shellStopStep, webContinueStep] }
      = (.stopped ("Failed at step 2: " ++ "boom")
          [{ step := 1, description := "list files", status := "success",
             result := some { tool := "file", toolAction := "list_files",
                              parameters := [], result := ⟨true, "out"⟩,
                              success := true },
             timestamp := "T" },
           { step := 2, description := "run a command", status := "error",
             error := some "boom", timestamp := "T" }]
          1 3,
         [⟨0, "filesystem", "list_files", []⟩,
          ⟨1, "shell", "execute_command", []⟩]) :=
  ⟨rfl, rfl, rfl,
    claim_C2_stop_terminates (listEnv [.ok ⟨true, "out"⟩, .thrown "boom"])
      "w" plainStep shellStopStep webContinueStep ⟨true, "out"⟩ "boom"
      rfl rfl rfl⟩

/-- C3: if at least one step's invocation throws but every throwing step
has policy `continue`, the run walks every step, the terminal result is
the `completed` shape with top-level `success = true`, the log has one
entry per step whose status records the failure (`error`) or success, and
every step is attempted. -/
theorem claim_C3_continue_keeps_success (env : Env) (wid : String)
    (steps : List Step)
    (_hfail : ∃ j, j < steps.length ∧ (env.tool j).isThrown = true)
    (hcont : ∀ j (hj : j < steps.length), (env.tool j).isThrown = true →
      (steps.get ⟨j, hj⟩).error_handling = some "continue") :
    (execute env { id := wid, analysis := some steps }).1.success = true
    ∧ (execute env ⟨wid, some steps⟩).1
        = .completed wid (contLog env steps 0) (contResults env steps 0)
            env.now
    ∧ (execute env ⟨wid, some steps⟩).1.executionLog.length = steps.length
    ∧ (∀ j (hj : j < (execute env ⟨wid, some steps⟩).1.executionLog.length),
        ((execute env ⟨wid, some steps⟩).1.executionLog.get ⟨j, hj⟩).status
          = if (env.tool j).isThrown = true then "error" else "success")
    ∧ (execute env ⟨wid, some steps⟩).2.map (fun c => c.idx)
        = List.range steps.length := by
  have hrun : execute env ⟨wid, some steps⟩
      = (.completed wid (contLog env steps 0) (contResults env steps 0)
          env.now, contCalls env steps 0) := by
    unfold execute
    have h := execGo_append env wid steps.length steps [] 0 [] [] []
      (by simpa using hcont)
    simpa [execGo] using h
  refine ⟨by simp [hrun, RunResult.success], by simp [hrun], ?_, ?_, ?_⟩
  · simp [hrun, RunResult.executionLog, contLog_length]
  · intro j hj
    have hj' : j < (contLog env steps 0).length := by
      simpa [hrun, RunResult.executionLog] using hj
    have h := contLog_status env steps 0 j hj'
    simp only [Nat.zero_add] at h
    simpa [hrun, RunResult.executionLog] using h
  · simp [hrun, contCalls_map_idx, List.range_eq_range']

theorem claim_C3_continue_keeps_success_witness :
    (∃ j, j < 3
      ∧ ((listEnv [.ok ⟨true, "out"⟩, .thrown "boom", .ok ⟨true, "out"⟩]).tool
          j).isThrown = true)
    ∧ (execute (listEnv [.ok ⟨true, "out"⟩, .thrown "boom", .ok ⟨true, "out"⟩])
        { id := "w",
          analysis := some [plainStep, webContinueStep, plainStep] }).1.success
        = true
    ∧ (execute (listEnv [.ok ⟨true, "out"⟩, .thrown "boom", .ok ⟨true, "out"⟩])
        ⟨"w", some [plainStep, webContinueStep, plainStep]⟩).1.executionLog.length
        = 3 := by
  have h := claim_C3_continue_keeps_success
    (listEnv [.ok ⟨true, "out"⟩, .thrown "boom", .ok ⟨true, "out"⟩]) "w"
    [plainStep, webContinueStep, plainStep]
    ⟨1, by decide, by decide⟩
    (by
      intro j hj ht
      have hj3 : j < 3 := by simpa using hj
      interval_cases j <;>
        simp_all [listEnv, ToolOutcome.isThrown, plainStep, webContinueStep])
  exact ⟨⟨1, by omega, by decide⟩, h.1, h.2.2.1⟩

/-- C6: when the run reaches a step whose invocation throws and whose
`errorHandling` is neither `stop` nor `continue` (including the documented
`ask` and an absent value), it terminates there with
`{success:false, requiresUserInput:true, error, executionLog}`: the log is
the prefix log plus this step's error entry, and no later step is
attempted (the invocation trace is exactly `0 … k`). -/
theorem claim_C6_ask_requires_input (env : Env) (wid : String)
    (pre post : List Step) (b : Step) (m : String)
    (hpre : ∀ j (hj : j < pre.length), (env.tool j).isThrown = true →
      (pre.get ⟨j, hj⟩).error_handling = some "continue")
    (hb : env.tool pre.length = .thrown m)
    (hbStop : b.error_handling ≠ some "stop")
    (hbCont : b.error_handling ≠ some "continue") :
    execute env { id := wid, analysis := some (pre ++ b :: post) }
      = (.needsInput
           ("Step " ++ toString (pre.length + 1) ++ " failed: " ++ m)
           (contLog env pre 0
             ++ [{ step := pre.length + 1, description := b.description,
                   status := "error", error := some m,
                   timestamp := env.now }]),
         contCalls env pre 0
           ++ [⟨pre.length, toolMapping b.tool, b.tool_action,
                b.parameters.getD []⟩])
    ∧ (execute env ⟨wid, some (pre ++ b :: post)⟩).1.requiresUserInput = true
    ∧ (execute env ⟨wid, some (pre ++ b :: post)⟩).1.success = false
    ∧ (execute env ⟨wid, some (pre ++ b :: post)⟩).1.executionLog.length
        = pre.length + 1
    ∧ (execute env ⟨wid, some (pre ++ b :: post)⟩).2.map (fun c => c.idx)
        = List.range (pre.length + 1) := by
  have hmain : execute env ⟨wid, some (pre ++ b :: post)⟩
      = (.needsInput
           ("Step " ++ toString (pre.length + 1) ++ " failed: " ++ m)
           (contLog env pre 0
             ++ [{ step := pre.length + 1, description := b.description,
                   status := "error", error := some m,
                   timestamp := env.now }]),
         contCalls env pre 0
           ++ [⟨pre.length, toolMapping b.tool, b.tool_action,
                b.parameters.getD []⟩]) := by
    have hunfold : execute env ⟨wid, some (pre ++ b :: post)⟩
        = execGo env wid (pre ++ b :: post).length (pre ++ b :: post) 0
            [] [] [] := rfl
    rw [hunfold, execGo_append env wid (pre ++ b :: post).length pre
      (b :: post) 0 [] [] [] (by simpa using hpre)]
    simp only [Nat.zero_add, List.nil_append, execGo, executeStep, hb]
    rw [if_neg hbStop, if_neg hbCont]
  have hcallsIdx : (contCalls env pre 0).map (fun c => c.idx)
      = List.range pre.length := by
    rw [contCalls_map_idx, List.range_eq_range']
  refine ⟨hmain, ?_, ?_, ?_, ?_⟩
  · simp [hmain, RunResult.requiresUserInput]
  · simp [hmain, RunResult.success]
  · simp [hmain, RunResult.executionLog, contLog_length]
  · simp [hmain, hcallsIdx, List.range_succ]

theorem claim_C6_ask_requires_input_witness :
    (execute (listEnv [.ok ⟨true, "out"⟩, .thrown "boom"])
        { id := "w",
          analysis := some ([webContinueStep] ++ plainStep
            :: [shellStopStep]) }).1.requiresUserInput = true
    ∧ (execute (listEnv [.ok ⟨true, "out"⟩, .thrown "boom"])
        ⟨"w", some ([webContinueStep] ++ plainStep
          :: [shellStopStep])⟩).1.executionLog.length = 2
    ∧ (execute (listEnv [.ok ⟨true, "out"⟩, .thrown "boom"])
        ⟨"w", some ([webContinueStep] ++ plainStep
          :: [shellStopStep])⟩).2.map (fun c => c.idx) = List.range 2 := by
  have h := claim_C6_ask_requires_input
    (listEnv [.ok ⟨true, "out"⟩, .thrown "boom"]) "w"
    [webContinueStep] [shellStopStep] plainStep "boom"
    (by
      intro j hj ht
      have hj1 : j < 1 := by simpa using hj
      interval_cases j
      simp_all [listEnv, ToolOutcome.isThrown, webContinueStep])
    rfl (by decide) (by decide)
  exact ⟨h.2.1, h.2.2.2.1, h.2.2.2.2⟩

/-- C5 counterexample: a single successful step whose `step_number` is 5.
The claim says the log entry's `step` field equals the step's
`stepNumber`; the code stamps the 1-based list position instead, so the
entry carries 1, not 5. -/
theorem claim_C5_counterexample :
    ((execute (listEnv [.ok ⟨true, "out"⟩])
        { id := "w", analysis := some [{ plainStep with step_number := 5 }]
        }).1.executionLog.map (fun e => e.step)) = [1]
    ∧ ({ plainStep with step_number := 5 } : Step).step_number = 5
    ∧ (1 : Nat) ≠ 5 :=
  ⟨rfl, rfl, by decide⟩

/-- C5 (amended): the executor attempts steps in list-position order,
ignoring `stepNumber` entirely: log entries carry `step` fields
`1, 2, …, n` (strictly increasing, no duplicates), the invocation trace is
`0, …, n-1`, and replacing every step's `stepNumber` leaves the run
unchanged. -/
theorem claim_C5_amended_positions (env : Env) (wid : String)
    (steps : List Step) :
    ((execute env { id := wid, analysis := some steps }).1.executionLog.map
        (fun e => e.step)
      = List.range' 1
          (execute env ⟨wid, some steps⟩).1.executionLog.length)
    ∧ ((execute env ⟨wid, some steps⟩).2.map (fun c => c.idx)
      = List.range (execute env ⟨wid, some steps⟩).1.executionLog.length)
    ∧ execute env
        ⟨wid, some (steps.map (fun s => { s with step_number := 0 }))⟩
      = execute env ⟨wid, some steps⟩ := by
  have h := execGo_log_shape env wid steps.length steps 0 [] [] []
    (by simp) (by simp) (by simp)
  have hunfold : execute env ⟨wid, some steps⟩
      = execGo env wid steps.length steps 0 [] [] [] := rfl
  refine ⟨by rw [hunfold]; exact h.1, by rw [hunfold]; exact h.2, ?_⟩
  have hunfold2 : execute env
      ⟨wid, some (steps.map (fun s => { s with step_number := 0 }))⟩
      = execGo env wid (steps.map (fun s => { s with step_number := 0 })).length
          (steps.map (fun s => { s with step_number := 0 })) 0 [] [] [] := rfl
  rw [hunfold, hunfold2, List.length_map]
  exact execGo_step_number_irrelevant env wid steps.length steps 0 [] [] []

/-- Loop invariant behind C10: whenever the loop terminates in the
`completed` shape, its results list holds exactly one element per
`success` log entry, provided the incoming accumulators already agree. -/
theorem execGo_results_count (env : Env) (wid : String) (total : Nat) :
    ∀ (steps : List Step) (i : Nat) (log : List LogEntry)
      (results : List StepResult) (calls : List Call),
      results.length = countSucc log →
      ∀ w l r t, (execGo env wid total steps i log results calls).1
          = .completed w l r t →
        r.length = countSucc l
  | [], i, log, results, calls, hres, w, l, r, t, heq => by
    simp only [execGo, RunResult.completed.injEq] at heq
    obtain ⟨-, hl, hr, -⟩ := heq
    rw [← hl, ← hr]
    exact hres
  | step :: rest, i, log, results, calls, hres, w, l, r, t, heq => by
    cases henv : env.tool i with
    | ok res =>
      refine execGo_results_count env wid total rest (i + 1)
        (log ++ [{ step := i + 1, description := step.description,
                   status := "success",
                   result := some { tool := step.tool,
                                    toolAction := step.tool_action,
                                    parameters := step.parameters.getD [],
                                    result := res, success := true },
                   timestamp := env.now }])
        (results ++ [{ tool := step.tool, toolAction := step.tool_action,
                       parameters := step.parameters.getD [], result := res,
                       success := true }])
        (calls ++ [⟨i, toolMapping step.tool, step.tool_action,
                    step.parameters.getD []⟩])
        (by simp [countSucc, List.filter_append, hres, Nat.add_comm])
        w l r t ?_
      rw [← heq]
      simp only [execGo, executeStep, henv]
    | thrown m =>
      by_cases hstop : step.error_handling = some "stop"
      · exfalso
        have : (execGo env wid total (step :: rest) i log results calls).1
            = .stopped ("Failed at step " ++ toString (i + 1) ++ ": " ++ m)
                (log ++ [{ step := i + 1, description := step.description,
                           status := "error", error := some m,
                           timestamp := env.now }]) i total := by
          simp only [execGo, executeStep, henv]
          rw [if_pos hstop]
        rw [this] at heq
        exact RunResult.noConfusion heq
      · by_cases hcont : step.error_handling = some "continue"
        · refine execGo_results_count env wid total rest (i + 1)
            (log ++ [{ step := i + 1, description := step.description,
                       status := "error", error := some m,
                       timestamp := env.now }])
            results
            (calls ++ [⟨i, toolMapping step.tool, step.tool_action,
                        step.parameters.getD []⟩])
            (by simp [countSucc, List.filter_append, hres])
            w l r t ?_
          rw [← heq]
          simp only [execGo, executeStep, henv]
          rw [if_neg hstop, if_pos hcont]
        · exfalso
          have : (execGo env wid total (step :: rest) i log results calls).1
              = .needsInput
                  ("Step " ++ toString (i + 1) ++ " failed: " ++ m)
                  (log ++ [{ step := i + 1,
                             description := step.description,
                             status := "error", error := some m,
                             timestamp := env.now }]) := by
            simp only [execGo, executeStep, henv]
            rw [if_neg hstop, if_neg hcont]
          rw [this] at heq
          exact RunResult.noConfusion heq

/-- C10: after every iteration and in the terminal result, the results
accumulator holds exactly one element per `success` log entry (so its
length never exceeds the log's); stated for the loop with arbitrary
incoming accumulators satisfying the invariant, and for a full
`execute` run. -/
theorem claim_C10_results_invariant (env : Env) (wid : String)
    (total : Nat) :
    (∀ (steps : List Step) (i : Nat) (log : List LogEntry)
       (results : List StepResult) (calls : List Call),
       results.length = countSucc log →
       ∀ w l r t, (execGo env wid total steps i log results calls).1
           = .completed w l r t →
         r.length = countSucc l ∧ countSucc l ≤ l.length)
    ∧ (∀ (steps : List Step) (w : String) (l : List LogEntry)
         (r : List StepResult) (t : String),
         (execute env ⟨wid, some steps⟩).1 = .completed w l r t →
         r.length = countSucc l ∧ countSucc l ≤ l.length) := by
  constructor
  · intro steps i log results calls hres w l r t heq
    exact ⟨execGo_results_count env wid total steps i log results calls
        hres w l r t heq,
      List.length_filter_le _ _⟩
  · intro steps w l r t heq
    have hunfold : execute env ⟨wid, some steps⟩
        = execGo env wid steps.length steps 0 [] [] [] := rfl
    rw [hunfold] at heq
    exact ⟨execGo_results_count env wid steps.length steps 0 [] [] []
        rfl w l r t heq,
      List.length_filter_le _ _⟩

theorem claim_C10_results_invariant_witness :
    ([] : List StepResult).length = countSucc []
    ∧ (execGo (listEnv [.ok ⟨true, "out"⟩, .thrown "boom"]) "w" 2
        [plainStep, webContinueStep] 0 [] [] []).1
      = .completed "w"
          [{ step := 1, description := "list files", status := "success",
             result := some { tool := "file", toolAction := "list_files",
                              parameters := [], result := ⟨true, "out"⟩,
                              success := true },
             timestamp := "T" },
           { step := 2, description := "fetch a page", status := "error",
             error := some "boom", timestamp := "T" }]
          [{ tool := "file", toolAction := "list_files", parameters := [],
             result := ⟨true, "out"⟩, success := true }] "T"
    ∧ (1 : Nat)
      = countSucc
          [{ step := 1, description := "list files", status := "success",
             result := some { tool := "file", toolAction := "list_files",
                              parameters := [], result := ⟨true, "out"⟩,
                              success := true },
             timestamp := "T" },
           { step := 2, description := "fetch a page", status := "error",
             error := some "boom", timestamp := "T" }] :=
  ⟨rfl, rfl,
    (claim_C10_results_invariant (listEnv [.ok ⟨true, "out"⟩, .thrown "boom"])
        "w" 2).1 [plainStep, webContinueStep] 0 [] [] [] rfl "w" _ _ "T"
      rfl |>.1⟩

/-- C4: a dry run over an N-step workflow returns
`{success:true, isDryRun:true, simulationLog, timestamp}` with exactly N
simulation entries, each `wouldExecute:true`; the invocation trace is
returned untouched (no adapter call, no registry resolution), and the
output does not depend on the tool environment at all. -/
theorem claim_C4_dry_run_no_effects (f g : Nat → ToolOutcome)
    (now wid : String) (steps : List Step) (calls : List Call) :
    dryRun ⟨f, now⟩ { id := wid, analysis := some steps } calls
      = (.ok { success := true, isDryRun := true,
               simulationLog := dryRunGo steps 0, timestamp := now }, calls)
    ∧ (dryRunGo steps 0).length = steps.length
    ∧ (∀ e ∈ dryRunGo steps 0, e.wouldExecute = true)
    ∧ dryRun ⟨f, now⟩ ⟨wid, some steps⟩ calls
      = dryRun ⟨g, now⟩ ⟨wid, some steps⟩ calls :=
  ⟨rfl, dryRunGo_length steps 0,
    fun e he => dryRunGo_wouldExecute steps 0 e he, rfl⟩

theorem claim_C4_dry_run_no_effects_witness :
    ({ step := 1, description := "list files", tool := "file",
       parameters := none, expectedOutput := "",
       wouldExecute := true } : SimEntry)
      ∈ dryRunGo [plainStep, shellStopStep] 0
    ∧ ({ step := 1, description := "list files", tool := "file",
         parameters := none, expectedOutput := "",
         wouldExecute := true } : SimEntry).wouldExecute = true
    ∧ (dryRunGo [plainStep, shellStopStep] 0).length = 2 := by
  have h := claim_C4_dry_run_no_effects (fun _ => .thrown "x")
    (fun _ => .ok ⟨true, "out"⟩) "T" "w" [plainStep, shellStopStep] []
  exact ⟨by decide, h.2.2.1 _ (by decide), h.2.1⟩

/-- C1 counterexample: a step whose adapter invocation returns a result
with `success:false` (as the shell adapter does on command failure), with
policy `stop`.  The claim requires an error log entry and the `stop`
policy to fire; the code instead records a `success` entry and finishes
the run with top-level `success = true`. -/
theorem claim_C1_counterexample :
    (listEnv [.ok shellFailToolResult]).tool 0
      = .ok { success := false, payload := "exit 1" }
    ∧ shellStopStep.error_handling = some "stop"
    ∧ (execute (listEnv [.ok shellFailToolResult])
        { id := "w", analysis := some [shellStopStep] }).1.success = true
    ∧ ((execute (listEnv [.ok shellFailToolResult])
        ⟨"w", some [shellStopStep]⟩).1.executionLog.map (fun e => e.status))
      = ["success"] :=
  ⟨rfl, rfl, rfl, rfl⟩

/-- C1 (amended): only a raised (thrown) error is treated as a step
failure.  A step whose invocation returns a value — regardless of the
value's own `success` field — is logged with status `success`, its result
is appended to `results`, and no policy applies: a run in which every
invocation returns a value completes with `success:true`.  A thrown error
yields an `error` log entry and the `errorHandling` branch (`stop`,
`continue`, or the ask fallback). -/
theorem claim_C1_amended_failure_is_throw_only :
    (∀ (env : Env) (wid : String) (steps : List Step),
      (∀ j, j < steps.length → (env.tool j).isThrown = false) →
      execute env { id := wid, analysis := some steps }
        = (.completed wid (contLog env steps 0) (contResults env steps 0)
            env.now, contCalls env steps 0)
      ∧ (execute env ⟨wid, some steps⟩).1.success = true
      ∧ (contResults env steps 0).length = steps.length
      ∧ (∀ j (hj : j < (contLog env steps 0).length),
          ((contLog env steps 0).get ⟨j, hj⟩).status = "success"))
    ∧ (∀ (env : Env) (wid : String) (total : Nat) (step : Step)
         (rest : List Step) (i : Nat) (log : List LogEntry)
         (results : List StepResult) (calls : List Call) (m : String),
        env.tool i = .thrown m →
        (step.error_handling = some "stop" →
          execGo env wid total (step :: rest) i log results calls
            = (.stopped ("Failed at step " ++ toString (i + 1) ++ ": " ++ m)
                (log ++ [{ step := i + 1, description := step.description,
                           status := "error", error := some m,
                           timestamp := env.now }]) i total,
               calls ++ [⟨i, toolMapping step.tool, step.tool_action,
                          step.parameters.getD []⟩]))
        ∧ (step.error_handling = some "continue" →
            execGo env wid total (step :: rest) i log results calls
              = execGo env wid total rest (i + 1)
                  (log ++ [{ step := i + 1,
                             description := step.description,
                             status := "error", error := some m,
                             timestamp := env.now }])
                  results
                  (calls ++ [⟨i, toolMapping step.tool, step.tool_action,
                              step.parameters.getD []⟩]))
        ∧ (step.error_handling ≠ some "stop" →
            step.error_handling ≠ some "continue" →
            execGo env wid total (step :: rest) i log results calls
              = (.needsInput
                  ("Step " ++ toString (i + 1) ++ " failed: " ++ m)
                  (log ++ [{ step := i + 1,
                             description := step.description,
                             status := "error", error := some m,
                             timestamp := env.now }]),
                 calls ++ [⟨i, toolMapping step.tool, step.tool_action,
                            step.parameters.getD []⟩]))) := by
  constructor
  · intro env wid steps h
    have hrun : execute env ⟨wid, some steps⟩
        = (.completed wid (contLog env steps 0) (contResults env steps 0)
            env.now, contCalls env steps 0) := by
      have hunfold : execute env ⟨wid, some steps⟩
          = execGo env wid steps.length steps 0 [] [] [] := rfl
      rw [hunfold]
      have hgo := execGo_append env wid steps.length steps [] 0 [] [] []
        (fun j hj ht => absurd ht (by simp [h j hj]))
      simpa [execGo] using hgo
    refine ⟨hrun, by simp [hrun, RunResult.success],
      contResults_length_ok env steps 0 (fun j hj => by simpa using h j hj),
      ?_⟩
    intro j hj
    have hs := contLog_status env steps 0 j hj
    have hjlen : j < steps.length := by
      simpa [contLog_length] using hj
    rw [hs]
    simp [h j hjlen]
  · intro env wid total step rest i log results calls m henv
    refine ⟨?_, ?_, ?_⟩
    · intro hstop
      simp only [execGo, executeStep, henv]
      rw [if_pos hstop]
    · intro hcont
      simp only [execGo, executeStep, henv]
      rw [if_neg (by simp [hcont]), if_pos hcont]
    · intro hstop hcont
      simp only [execGo, executeStep, henv]
      rw [if_neg hstop, if_neg hcont]

theorem claim_C1_amended_failure_is_throw_only_witness :
    execute (listEnv [.ok shellFailToolResult])
        { id := "w", analysis := some [plainStep] }
      = (.completed "w"
          (contLog (listEnv [.ok shellFailToolResult]) [plainStep] 0)
          (contResults (listEnv [.ok shellFailToolResult]) [plainStep] 0)
          "T",
         contCalls (listEnv [.ok shellFailToolResult]) [plainStep] 0)
    ∧ execGo (listEnv [.thrown "boom"]) "w" 1 [shellStopStep] 0 [] [] []
      = (.stopped ("Failed at step " ++ toString 1 ++ ": " ++ "boom")
          [{ step := 1, description := "run a command", status := "error",
             error := some "boom", timestamp := "T" }] 0 1,
         [⟨0, "shell", "execute_command", []⟩]) := by
  have h := claim_C1_amended_failure_is_throw_only
  refine ⟨(h.1 (listEnv [.ok shellFailToolResult]) "w" [plainStep] ?_).1, ?_⟩
  · intro j hj
    have hj1 : j < 1 := by simpa using hj
    interval_cases j
    rfl
  · have hb := (h.2 (listEnv [.thrown "boom"]) "w" 1 shellStopStep [] 0
      [] [] [] "boom" rfl).1 rfl
    simpa using hb

theorem confLog_length (env : Env) :
    ∀ (steps : List Step) (i : Nat),
      (confLog env steps i).length = steps.length
  | [], _ => rfl
  | step :: rest, i => by
    simp [confLog, confLog_length env rest (i + 1)]

/-- C9 counterexample: one step whose invocation throws and whose policy
is `continue`.  The normal run applies the policy and terminates with
`success:true`; the confirmation variant propagates the thrown error to
its caller instead — the two are observably different. -/
theorem claim_C9_counterexample :
    (execute (listEnv [.thrown "boom"])
        { id := "w", analysis := some [webContinueStep] }).1.success = true
    ∧ (executeWithConfirmation (listEnv [.thrown "boom"])
        ⟨"w", some [webContinueStep]⟩).1 = .error "boom" :=
  ⟨rfl, rfl⟩

/-- C9 (amended): the confirmation variant proceeds immediately without
pausing, and while every invocation returns a value it attempts the same
steps in the same order as the normal run — the two produce identical
invocation traces, and it returns success with one log entry per step
(though its entries and result shape differ from the normal run's).  But
on the first step whose invocation throws it propagates the error to the
caller instead of applying the step's `errorHandling` policy. -/
theorem claim_C9_amended_confirmation :
    (∀ (env : Env) (wid : String) (steps : List Step),
      (∀ j, j < steps.length → (env.tool j).isThrown = false) →
      (executeWithConfirmation env ⟨wid, some steps⟩).2
          = (execute env { id := wid, analysis := some steps }).2
      ∧ executeWithConfirmation env ⟨wid, some steps⟩
          = (.ok { success := true, executionLog := confLog env steps 0,
                   timestamp := env.now }, contCalls env steps 0)
      ∧ (confLog env steps 0).length = steps.length
      ∧ (execute env ⟨wid, some steps⟩).1.success = true)
    ∧ (∀ (env : Env) (wid : String) (pre : List Step) (b : Step)
         (post : List Step) (m : String),
        (∀ j, j < pre.length → (env.tool j).isThrown = false) →
        env.tool pre.length = .thrown m →
        executeWithConfirmation env ⟨wid, some (pre ++ b :: post)⟩
          = (.error m,
             contCalls env pre 0
               ++ [⟨pre.length, toolMapping b.tool, b.tool_action,
                    b.parameters.getD []⟩])) := by
  constructor
  · intro env wid steps h
    have hconf : executeWithConfirmation env ⟨wid, some steps⟩
        = (.ok { success := true, executionLog := confLog env steps 0,
                 timestamp := env.now }, contCalls env steps 0) := by
      have hunfold : executeWithConfirmation env ⟨wid, some steps⟩
          = (match confGo env steps 0 [] [] with
             | (.ok log, calls) =>
               (.ok { success := true, executionLog := log,
                      timestamp := env.now }, calls)
             | (.error m, calls) => (.error m, calls)) := rfl
      have hgo := confGo_append env steps [] 0 [] [] (by simpa using h)
      rw [hunfold]
      simp only [List.append_nil] at hgo
      rw [hgo]
      simp [confGo]
    have hexec : execute env ⟨wid, some steps⟩
        = (.completed wid (contLog env steps 0) (contResults env steps 0)
            env.now, contCalls env steps 0) := by
      have hunfold : execute env ⟨wid, some steps⟩
          = execGo env wid steps.length steps 0 [] [] [] := rfl
      rw [hunfold]
      have hgo := execGo_append env wid steps.length steps [] 0 [] [] []
        (fun j hj ht => absurd ht (by simp [h j hj]))
      simpa [execGo] using hgo
    exact ⟨by rw [hconf, hexec], hconf, confLog_length env steps 0,
      by simp [hexec, RunResult.success]⟩
  · intro env wid pre b post m h hb
    have hunfold : executeWithConfirmation env ⟨wid, some (pre ++ b :: post)⟩
        = (match confGo env (pre ++ b :: post) 0 [] [] with
           | (.ok log, calls) =>
             (.ok { success := true, executionLog := log,
                    timestamp := env.now }, calls)
           | (.error m, calls) => (.error m, calls)) := rfl
    have hgo := confGo_append env pre (b :: post) 0 [] [] (by simpa using h)
    rw [hunfold, hgo]
    simp only [Nat.zero_add, List.nil_append, confGo, executeStep, hb]

theorem claim_C9_amended_confirmation_witness :
    executeWithConfirmation (listEnv [.ok ⟨true, "out"⟩])
        ⟨"w", some [plainStep]⟩
      = (.ok { success := true,
               executionLog :=
                 confLog (listEnv [.ok ⟨true, "out"⟩]) [plainStep] 0,
               timestamp := "T" },
         contCalls (listEnv [.ok ⟨true, "out"⟩]) [plainStep] 0)
    ∧ executeWithConfirmation (listEnv [.thrown "zap"])
        ⟨"w", some ([] ++ webContinueStep :: [])⟩
      = (.error "zap", [⟨0, "web", "fetch_url", []⟩]) := by
  have h := claim_C9_amended_confirmation
  refine ⟨(h.1 (listEnv [.ok ⟨true, "out"⟩]) "w" [plainStep] ?_).2.1, ?_⟩
  · intro j hj
    have hj1 : j < 1 := by simpa using hj
    interval_cases j
    rfl
  · have hb := h.2 (listEnv [.thrown "zap"]) "w" [] webContinueStep []
      "zap" (by intro j hj; simp at hj) rfl
    simpa [contCalls] using hb

/-- C7: `execute_command` passes `execPromise` a 10 MB output-buffer cap
and a 30 s timeout, and never raises to its caller: when its body returns
a result it is the resolved success shape (`success:true, exitCode:0`);
when its body throws — missing parameter, timeout, nonzero exit, any
rejection — the catch converts the error into a structured
`success:false` result carrying `exitCode = code || status || 1` and the
stdout/stderr captured so far. -/
theorem claim_C7_shell_structured_failure (env : ShellEnv)
    (params : ShellParams) :
    shellExecOptions.maxBuffer = 10 * 1024 * 1024
    ∧ shellExecOptions.timeout = 30000
    ∧ (∀ r, execute_command_go env params = .ok r →
        execute_command env params = r
        ∧ r.success = true ∧ r.exitCode = 0)
    ∧ (∀ e, execute_command_go env params = .error e →
        execute_command env params
          = { success := false, command := params.command,
              cwd := jsOrStr (params.cwd.getD "") env.procCwd,
              stdout := e.stdoutCaptured,
              stderr := jsOrStr e.stderrCaptured e.message,
              exitCode := jsOrInt e.code (jsOrInt e.status 1),
              error := some e.message }
        ∧ (execute_command env params).success = false) := by
  refine ⟨rfl, rfl, ?_, ?_⟩
  · intro r hr
    refine ⟨by simp [execute_command, hr], ?_⟩
    cases hc : params.command with
    | none => simp [execute_command_go, hc] at hr
    | some cmd =>
      cases hx : env.exec cmd (params.cwd.getD env.procCwd)
          shellExecOptions with
      | resolved out errOut =>
        simp only [execute_command_go, hc, hx, Except.ok.injEq] at hr
        rw [← hr]
        exact ⟨rfl, rfl⟩
      | rejected e => simp [execute_command_go, hc, hx] at hr
  · intro e he
    refine ⟨by simp [execute_command, he], ?_⟩
    simp [execute_command, he]

theorem claim_C7_shell_structured_failure_witness :
    execute_command_go timeoutShellEnv { command := some "sleep 99" }
      = .error (.execErr
          { code := none, status := none, stdout := "partial output",
            stderr := "", message := "Command failed: timed out" })
    ∧ execute_command timeoutShellEnv { command := some "sleep 99" }
      = { success := false, command := some "sleep 99", cwd := "/work",
          stdout := "partial output",
          stderr := "Command failed: timed out", exitCode := 1,
          error := some "Command failed: timed out" }
    ∧ (execute_command timeoutShellEnv
        { command := some "sleep 99" }).success = false := by
  have h := (claim_C7_shell_structured_failure timeoutShellEnv
      { command := some "sleep 99" }).2.2.2
      (.execErr { code := none, status := none, stdout := "partial output",
                  stderr := "", message := "Command failed: timed out" })
      rfl
  exact ⟨rfl, h.1, h.2⟩

/-- C8 counterexample: `filter_data` reads the file and returns the
matching rows, but performs no write: the store after the call is the very
store passed in, whose file still holds both original rows while the
filter result holds one — the filtered data is not persisted. -/
theorem claim_C8_counterexample :
    filter_data demoStore "data.xlsx" (some "a") (some 1) none
      = .ok ({ success := true, path := "data.xlsx", column := "a",
               value := 1, matchedRows := 1, data := [[("a", 1)]] },
             demoStore)
    ∧ getFile demoStore "data.xlsx"
      = some [("Sheet1", [[("a", 2)], [("a", 1)]])]
    ∧ [[("a", (1 : Int))]] ≠ [[("a", (2 : Int))], [("a", 1)]] :=
  ⟨rfl, rfl, by decide⟩

/-- C8 (amended): `sort_data` and `append_data` each perform a full read
(`read_spreadsheet` of the whole sheet) followed by a full write
(`write_spreadsheet` of the complete new row list, persisted into the
store); `filter_data` performs the full read but no write — it returns
the matching rows in its result and leaves the file store unchanged. -/
theorem claim_C8_amended_filter_does_not_write :
    (∀ (store : Store) (p : String) (column ord sheet : Option String)
       (rr : ReadResult),
      read_spreadsheet store p sheet = .ok rr →
      jsTruthy column = true →
      sort_data store p column ord sheet
        = .ok ({ success := true, path := p, sortedBy := column.getD "",
                 order := if sortIsAscending ord then "asc" else "desc",
                 rowsSorted := (sortRows
                   (rowBefore (column.getD "") (sortIsAscending ord))
                   rr.data).length },
               setFile store p
                 [(jsOrOptStr (some (jsOrOptStr sheet rr.sheet)) "Sheet1",
                   sortRows (rowBefore (column.getD "") (sortIsAscending ord))
                     rr.data)]))
    ∧ (∀ (store : Store) (p : String) (data : List Row)
         (sheet : Option String) (rr : ReadResult),
        read_spreadsheet store p sheet = .ok rr →
        append_data store p data sheet
          = .ok ({ success := true, path := p,
                   rowsAppended := data.length,
                   totalRows := (rr.data ++ data).length },
                 setFile store p
                   [(jsOrOptStr (some (jsOrOptStr sheet rr.sheet)) "Sheet1",
                     rr.data ++ data)]))
    ∧ (∀ (store : Store) (p : String) (column : Option String)
         (v : Option Int) (sheet : Option String) (res : FilterResult)
         (st' : Store),
        filter_data store p column v sheet = .ok (res, st') →
        st' = store) := by
  refine ⟨?_, ?_, ?_⟩
  · intro store p column ord sheet rr hread hcol
    simp [sort_data, hread, hcol, write_spreadsheet]
  · intro store p data sheet rr hread
    simp [append_data, hread, write_spreadsheet]
  · intro store p column v sheet res st' h
    cases hread : read_spreadsheet store p sheet with
    | error m => simp [filter_data, hread] at h
    | ok rr =>
      by_cases hcol : jsTruthy column = false ∨ v = none
      · simp [filter_data, hread, hcol] at h
      · simp only [filter_data, hread, if_neg hcol, Except.ok.injEq] at h
        have h2 := congrArg Prod.snd h
        first
        | simpa using h2
        | simpa using h2.symm

theorem claim_C8_amended_filter_does_not_write_witness :
    read_spreadsheet demoStore "data.xlsx" none
      = .ok { success := true, path := "data.xlsx", sheet := "Sheet1",
              data := [[("a", 2)], [("a", 1)]], rowCount := 2,
              columnCount := 1 }
    ∧ sort_data demoStore "data.xlsx" (some "a") none none
      = .ok ({ success := true, path := "data.xlsx", sortedBy := "a",
               order := "asc", rowsSorted := 2 },
             [("data.xlsx", [("Sheet1", [[("a", 1)], [("a", 2)]])])])
    ∧ append_data demoStore "data.xlsx" [[("a", 9)]] none
      = .ok ({ success := true, path := "data.xlsx", rowsAppended := 1,
               totalRows := 3 },
             [("data.xlsx",
               [("Sheet1", [[("a", 2)], [("a", 1)], [("a", 9)]])])])
    ∧ (∀ res st', filter_data demoStore "data.xlsx" (some "a") (some 2) none
        = .ok (res, st') → st' = demoStore) := by
  have h := claim_C8_amended_filter_does_not_write
  have hread : read_spreadsheet demoStore "data.xlsx" none
      = .ok { success := true, path := "data.xlsx", sheet := "Sheet1",
              data := [[("a", 2)], [("a", 1)]], rowCount := 2,
              columnCount := 1 } := rfl
  refine ⟨hread, ?_, ?_, ?_⟩
  · have hs := h.1 demoStore "data.xlsx" (some "a") none none _ hread rfl
    simpa using hs
  · have ha := h.2.1 demoStore "data.xlsx" [[("a", 9)]] none _ hread
    simpa using ha
  · intro res st' hf
    exact h.2.2 demoStore "data.xlsx" (some "a") (some 2) none res st' hf

end YODO
